import Mathlib

set_option maxHeartbeats 1000000

/-!
Shallow embedding of the GraphQL response shaper from
`query/outputnode_graphql.go` (package `query`): the recursive encoder
`encodeGraphQL`, its helpers `skipField`, `checkAndStripComma`,
`writeGraphQLNull`, and the GeoJSON completers `completeGeoObject`,
`completePoint`, `completePolygon`, `completeMultiPolygon`.

Modelling choices:
* `bytes.Buffer` is a `String`; byte offsets are character counts (the
  encoder records offsets itself and only ever truncates to them, so the
  control flow is unchanged; all emitted punctuation is ASCII).
* interned attribute ids (`uint16`) are `Nat`; the interner of the
  surrounding `encoder` struct is a pair of functions.
* the arena-backed `fastJsonNode` is an inductive tree: a node carries its
  attribute id, its list flag, the result `getScalarVal` would return for
  it, and the linked list of children (`enc.children` / `.next`).
* Go panics (`x.Check`, out-of-range indexing and slicing) are modelled by
  the dedicated result constructor `panicked`; the unbounded `for` loop of
  `encodeGraphQL` is modelled with a fuel parameter, `fuelOut` meaning the
  computation did not finish within the given fuel.
-/

namespace DgraphEnc

/-- GraphQL type information used by the encoder: `Type()` of a field, with
`ListType`, `Nullable` and `IsGeo` observers. -/
inductive GqlType where
  | scalar (tname : String) (isNullable : Bool) (geo : Bool)
  | list (item : GqlType) (isNullable : Bool)
deriving DecidableEq

/-- `Type.ListType()`: the item type for a list type, `none` otherwise. -/
def GqlType.listType : GqlType → Option GqlType
  | .scalar _ _ _ => none
  | .list t _ => some t

/-- `Type.Nullable()`. -/
def GqlType.nullable : GqlType → Bool
  | .scalar _ n _ => n
  | .list _ n => n

/-- `Type.IsGeo()`: in the schema package this tests the underlying type
name (`Point`/`Polygon`/`MultiPolygon`), which ignores list wrappers. -/
def GqlType.isGeo : GqlType → Bool
  | .scalar _ _ g => g
  | .list t _ => t.isGeo

/-- Modelled from the spec: the textual form of a type used in the
`ErrExpectedNonNull` message (the schema package's `Type.String()` is
outside the embedded source). -/
def gqlTypeStr : GqlType → String
  | .scalar n isNullable _ => n ++ (if isNullable then "" else "!")
  | .list t isNullable => "[" ++ gqlTypeStr t ++ "]" ++ (if isNullable then "" else "!")

/-- A field of a GraphQL selection set, with the capabilities the encoder
consumes: identity (`Name`, `ResponseName`, `DgraphAlias`), typing,
directive answers (`Skip`, `Include`, `IncludeInterfaceField`), typename
resolution (`TypeName`) and the nested selection set. -/
inductive Field where
  | mk (fname responseName dgraphAlias : String) (typ : GqlType)
      (skipDir incl : Bool)
      (includeInterfaceField : List String → Bool)
      (typeNameFn : List String → String)
      (selectionSet : List Field)

/-- `Field.Name()`. -/
def Field.name : Field → String
  | .mk n _ _ _ _ _ _ _ _ => n

/-- `Field.ResponseName()`. -/
def Field.responseName : Field → String
  | .mk _ r _ _ _ _ _ _ _ => r

/-- `Field.DgraphAlias()`. -/
def Field.dgraphAlias : Field → String
  | .mk _ _ a _ _ _ _ _ _ => a

/-- `Field.Type()`. -/
def Field.typ : Field → GqlType
  | .mk _ _ _ t _ _ _ _ _ => t

/-- `Field.Skip()`. -/
def Field.skipDir : Field → Bool
  | .mk _ _ _ _ s _ _ _ _ => s

/-- `Field.Include()`. -/
def Field.incl : Field → Bool
  | .mk _ _ _ _ _ i _ _ _ => i

/-- `Field.IncludeInterfaceField(dgraphTypes)`. -/
def Field.includeInterfaceField : Field → List String → Bool
  | .mk _ _ _ _ _ _ f _ _ => f

/-- `Field.TypeName(dgraphTypes)`. -/
def Field.typeNameFn : Field → List String → String
  | .mk _ _ _ _ _ _ _ t _ => t

/-- `Field.SelectionSet()`. -/
def Field.selectionSet : Field → List Field
  | .mk _ _ _ _ _ _ _ _ s => s

/-- A segment of a GraphQL error path (`[]interface\x7b\x7d` of strings and
ints in the source). -/
inductive PathElem where
  | str (s : String)
  | idx (n : Nat)
deriving DecidableEq

/-- A structured GraphQL error: the message template, its formatting
arguments, and the path (`GqlErrorf` in the source builds the formatted
message; the model keeps template and arguments separate). -/
structure GqlError where
  message : String
  args : List String
  path : List PathElem
deriving DecidableEq

/-- `Field.GqlErrorf(path, message, args...)`. -/
def Field.gqlErrorf (_f : Field) (path : List PathElem) (message : String)
    (args : List String) : GqlError :=
  { message := message, args := args, path := path }

/-- Modelled from the spec: `gqlSchema.ErrExpectedScalar` (the schema
package's error constants are outside the embedded source; wording from the
spec, apostrophes dropped). -/
def errExpectedScalar : String := "Expected a scalar value, but got an object."

/-- Modelled from the spec: `gqlSchema.ErrExpectedNonNull` message template
taking the field name and type as arguments. -/
def errExpectedNonNull : String :=
  "Non-nullable field %s (type %s) was not present in result from Dgraph."

/-- Modelled from the spec: `gqlSchema.ErrExpectedSingleItem`. -/
def errExpectedSingleItem : String :=
  "A list was returned, but GraphQL was expecting just one item."

/-- Modelled from the spec: `gqlSchema.ErrExpectedList`. -/
def errExpectedList : String :=
  "A single item was returned, but GraphQL was expecting a list."

/-- `gqlSchema.Typename`. -/
def typenameName : String := "__typename"

/-- `gqlSchema.Point`. -/
def pointName : String := "Point"

/-- `gqlSchema.Polygon`. -/
def polygonName : String := "Polygon"

/-- `gqlSchema.MultiPolygon`. -/
def multiPolygonName : String := "MultiPolygon"

/-- `gqlSchema.Longitude`. -/
def longitudeName : String := "longitude"

/-- `gqlSchema.Latitude`. -/
def latitudeName : String := "latitude"

/-- `gqlSchema.Coordinates`. -/
def coordinatesName : String := "coordinates"

/-- `gqlSchema.Points`. -/
def pointsName : String := "points"

/-- `gqlSchema.Polygons`. -/
def polygonsName : String := "polygons"

/-- The sentinel attribute name of the root fastJson node. -/
def rootSentinel : String := "_root_"

/-- The arena-backed result tree node: attribute id, list flag, the result
of `enc.getScalarVal` on the node (either an error, or an optional byte
string), and the node's children (`enc.children` gives the head of the
child list, siblings are linked by `.next`). -/
inductive FastJsonNode where
  | node (attrId : Nat) (listFlag : Bool) (scalarVal : Except String (Option String))
      (childList : List FastJsonNode)

/-- `enc.getAttr(n)`. -/
def FastJsonNode.attr : FastJsonNode → Nat
  | .node a _ _ _ => a

/-- `enc.getList(n)`. -/
def FastJsonNode.getList : FastJsonNode → Bool
  | .node _ l _ _ => l

/-- `enc.getScalarVal(n)`. -/
def FastJsonNode.scalarVal : FastJsonNode → Except String (Option String)
  | .node _ _ v _ => v

/-- `enc.children(n)` (and subsequent `.next` links) as a list. -/
def FastJsonNode.children : FastJsonNode → List FastJsonNode
  | .node _ _ _ c => c

/-- The attribute interner of the surrounding `encoder` struct: read-only
during shaping. -/
structure Encoder where
  idForAttr : String → Nat
  attrForID : Nat → String

/-- `writeKeyGraphQL(field, out)`: writes `"<ResponseName>":`. -/
def writeKeyGraphQL (field : Field) (out : String) : String :=
  out ++ "\x22" ++ field.responseName ++ "\x22:"

/-- `skipField(f, dgraphTypes)` from the source. -/
def skipField (f : Field) (dgraphTypes : List String) : Bool :=
  if f.skipDir || !f.incl then true
  else if dgraphTypes.length > 0 && !(f.includeInterfaceField dgraphTypes) then true
  else false

/-- `checkAndStripComma(buf)` from the source. -/
def checkAndStripComma (buf : String) : String :=
  if buf.length > 0 && buf.back == ',' then buf.dropRight 1 else buf

/-- `writeGraphQLNull(f, out, keyEndPos)` from the source: the returned
pair is (the Go boolean result, the buffer after the call). -/
def writeGraphQLNull (f : Field) (out : String) (keyEndPos : Nat) : Bool × String :=
  let out := out.take keyEndPos
  if (f.typ.listType).isSome then (true, out ++ "[]")
  else if f.typ.nullable then (true, out ++ "null")
  else (false, out)

/-! ### A model of `encoding/json` unmarshalling

`encodeGraphQL` calls `json.Unmarshal(val, &geoVal)` under `x.Check` for geo
values.  The model parses the bytes into a JSON syntax tree; numbers keep
their textual form (Go would round-trip them through `float64`, which only
changes numeric formatting, not the control flow the claims are about). -/

/-- A parsed JSON value (`interface\x7b\x7d` after `json.Unmarshal`). -/
inductive JsonVal where
  | jnull
  | jbool (b : Bool)
  | jnum (s : String)
  | jstr (s : String)
  | jarr (xs : List JsonVal)
  | jobj (kvs : List (String × JsonVal))

/-- JSON whitespace. -/
def isWsChar (c : Char) : Bool := c == ' ' || c == '\t' || c == '\n' || c == '\r'

/-- Drop leading JSON whitespace. -/
def skipWs (cs : List Char) : List Char := cs.dropWhile isWsChar

/-- ASCII digit test. -/
def isDigitChar (c : Char) : Bool := '0' ≤ c && c ≤ '9'

/-- ASCII hex digit test. -/
def isHexChar (c : Char) : Bool :=
  isDigitChar c || ('a' ≤ c && c ≤ 'f') || ('A' ≤ c && c ≤ 'F')

/-- Numeric value of a hex digit. -/
def hexVal (c : Char) : Nat :=
  if isDigitChar c then c.toNat - '0'.toNat
  else if 'a' ≤ c && c ≤ 'f' then c.toNat - 'a'.toNat + 10
  else c.toNat - 'A'.toNat + 10

/-- The opening brace character. -/
def lbrace : Char := Char.ofNat 123

/-- The closing brace character. -/
def rbrace : Char := Char.ofNat 125

/-- Parse the body of a JSON string literal (after the opening quote),
returning the decoded characters and the rest of the input. -/
def parseStringBody : List Char → Option (List Char × List Char)
  | [] => none
  | '\x22' :: rest => some ([], rest)
  | '\\' :: 'u' :: h1 :: h2 :: h3 :: h4 :: rest =>
    if isHexChar h1 && isHexChar h2 && isHexChar h3 && isHexChar h4 then
      match parseStringBody rest with
      | some (acc, r) =>
        some (Char.ofNat (((hexVal h1 * 16 + hexVal h2) * 16 + hexVal h3) * 16 + hexVal h4)
          :: acc, r)
      | none => none
    else none
  | '\\' :: c :: rest =>
    let dec : Option Char :=
      if c == '\x22' then some '\x22' else if c == '\\' then some '\\'
      else if c == '/' then some '/' else if c == 'b' then some (Char.ofNat 8)
      else if c == 'f' then some (Char.ofNat 12) else if c == 'n' then some '\n'
      else if c == 'r' then some '\r' else if c == 't' then some '\t' else none
    match dec with
    | some d =>
      match parseStringBody rest with
      | some (acc, r) => some (d :: acc, r)
      | none => none
    | none => none
  | c :: rest =>
    if c.toNat < 32 then none
    else
      match parseStringBody rest with
      | some (acc, r) => some (c :: acc, r)
      | none => none

/-- Parse the integer part of a JSON number (no leading zeros). -/
def parseIntPart : List Char → Option (List Char × List Char)
  | '0' :: rest => some (['0'], rest)
  | c :: rest =>
    if isDigitChar c then some (c :: rest.takeWhile isDigitChar, rest.dropWhile isDigitChar)
    else none
  | [] => none

/-- Parse an optional fraction part of a JSON number. -/
def parseFracPart : List Char → Option (List Char × List Char)
  | '.' :: rest =>
    let ds := rest.takeWhile isDigitChar
    if ds.isEmpty then none
    else some ('.' :: ds, rest.dropWhile isDigitChar)
  | cs => some ([], cs)

/-- Parse an optional exponent part of a JSON number. -/
def parseExpPart : List Char → Option (List Char × List Char)
  | c :: rest =>
    if c == 'e' || c == 'E' then
      let (sgn, rest1) :=
        match rest with
        | s :: r => if s == '+' || s == '-' then ([s], r) else (([] : List Char), s :: r)
        | [] => ([], [])
      let ds := rest1.takeWhile isDigitChar
      if ds.isEmpty then none
      else some (c :: (sgn ++ ds), rest1.dropWhile isDigitChar)
    else some ([], c :: rest)
  | [] => some ([], [])

/-- Parse a JSON number, returning its text and the rest of the input. -/
def parseNumber (cs : List Char) : Option (List Char × List Char) :=
  let (neg, cs1) : List Char × List Char :=
    match cs with
    | '-' :: r => (['-'], r)
    | _ => ([], cs)
  match parseIntPart cs1 with
  | none => none
  | some (ip, cs2) =>
    match parseFracPart cs2 with
    | none => none
    | some (fp, cs3) =>
      match parseExpPart cs3 with
      | none => none
      | some (ep, cs4) => some (neg ++ ip ++ fp ++ ep, cs4)

mutual

/-- Parse one JSON value (fuel-bounded recursive descent). -/
def parseVal : Nat → List Char → Option (JsonVal × List Char)
  | 0, _ => none
  | Nat.succ fuel, cs0 =>
    match skipWs cs0 with
    | [] => none
    | 'n' :: 'u' :: 'l' :: 'l' :: rest => some (.jnull, rest)
    | 't' :: 'r' :: 'u' :: 'e' :: rest => some (.jbool true, rest)
    | 'f' :: 'a' :: 'l' :: 's' :: 'e' :: rest => some (.jbool false, rest)
    | '\x22' :: rest => (parseStringBody rest).map (fun p => (.jstr (String.mk p.1), p.2))
    | '[' :: rest =>
      (match skipWs rest with
       | ']' :: r2 => some (.jarr [], r2)
       | r2 => (parseArrItems fuel r2).map (fun p => (.jarr p.1, p.2)))
    | c :: rest =>
      if c == lbrace then
        match skipWs rest with
        | d :: r3 =>
          if d == rbrace then some (.jobj [], r3)
          else (parseObjItems fuel (d :: r3)).map (fun p => (.jobj p.1, p.2))
        | [] => none
      else (parseNumber (c :: rest)).map (fun p => (.jnum (String.mk p.1), p.2))

/-- Parse the comma-separated items of a JSON array up to `]`. -/
def parseArrItems : Nat → List Char → Option (List JsonVal × List Char)
  | 0, _ => none
  | Nat.succ fuel, cs =>
    match parseVal fuel cs with
    | none => none
    | some (v, rest) =>
      match skipWs rest with
      | ',' :: r2 => (parseArrItems fuel r2).map (fun p => (v :: p.1, p.2))
      | ']' :: r2 => some ([v], r2)
      | _ => none

/-- Parse the comma-separated members of a JSON object up to the closing
brace. -/
def parseObjItems : Nat → List Char → Option (List (String × JsonVal) × List Char)
  | 0, _ => none
  | Nat.succ fuel, cs =>
    match skipWs cs with
    | '\x22' :: rest =>
      match parseStringBody rest with
      | none => none
      | some (kcs, r1) =>
        match skipWs r1 with
        | ':' :: r2 =>
          match parseVal fuel r2 with
          | none => none
          | some (v, r3) =>
            match skipWs r3 with
            | ',' :: r4 => (parseObjItems fuel r4).map (fun p => ((String.mk kcs, v) :: p.1, p.2))
            | d :: r4 => if d == rbrace then some ([(String.mk kcs, v)], r4) else none
            | [] => none
        | _ => none
    | _ => none

end

/-- Parse a complete byte string as one JSON value, requiring only
whitespace after it (`encoding/json` syntax acceptance). -/
def parseJson (s : String) : Option JsonVal :=
  match parseVal (s.length + 1) s.data with
  | none => none
  | some (v, rest) => if (skipWs rest).isEmpty then some v else none

/-- `json.Unmarshal(val, &geoVal)` with `geoVal : map[string]interface\x7b\x7d`:
a JSON object gives its members, JSON `null` leaves the map nil (which reads
as empty), anything else is an unmarshalling error (and hence a panic under
`x.Check`). -/
def unmarshalMap : JsonVal → Option (List (String × JsonVal))
  | .jobj kvs => some kvs
  | .jnull => some []
  | _ => none

/-! ### The geo completers -/

/-- Go's `x, _ := v.([]interface\x7b\x7d)` type assertion: a non-array (or a
missing value) yields the nil slice, which ranges as empty and indexes as
out-of-range. -/
def asArr : JsonVal → List JsonVal
  | .jarr xs => xs
  | _ => []

/-- The `v.([]interface\x7b\x7d)` assertion keeping track of nil-ness (the
source checks `coordinate == nil`). -/
def asArrOpt : JsonVal → Option (List JsonVal)
  | .jarr xs => some xs
  | _ => none

/-- The `v.(string)` assertion with the `, _` form: non-strings give `""`. -/
def asStrOpt : JsonVal → Option String
  | .jstr s => some s
  | _ => none

/-- Lookup in the unmarshalled `map[string]interface\x7b\x7d`
(`encoding/json` keeps the last duplicate member). -/
def lookupLast (kvs : List (String × JsonVal)) (k : String) : Option JsonVal :=
  (kvs.reverse.find? (fun p => p.1 == k)).map (fun p => p.2)

mutual

/-- `fmt.Sprintf("%v", x)` on an unmarshalled JSON value.  Numbers keep
their textual form (Go formats the `float64`); composites use Go's `%v`
shape; the exact text never influences the encoder's control flow. -/
def gfmt : JsonVal → String
  | .jnull => "<nil>"
  | .jbool b => if b then "true" else "false"
  | .jnum s => s
  | .jstr s => s
  | .jarr xs => "[" ++ gfmtList xs ++ "]"
  | .jobj kvs => "map[" ++ gfmtObj kvs ++ "]"

/-- Space-separated `%v` rendering of a slice's elements. -/
def gfmtList : List JsonVal → String
  | [] => ""
  | [x] => gfmt x
  | x :: xs => gfmt x ++ " " ++ gfmtList xs

/-- Space-separated `%v` rendering of a map's members. -/
def gfmtObj : List (String × JsonVal) → String
  | [] => ""
  | [(k, v)] => k ++ ":" ++ gfmt v
  | (k, v) :: kvs => k ++ ":" ++ gfmt v ++ " " ++ gfmtObj kvs

end

/-- The inner loop of `completePoint` over the selection set: `comma` is the
separator to put before the next member; `none` models the panic raised by
the out-of-range reads `coordinate[0]` / `coordinate[1]`. -/
def completePointAux (coordinate : List JsonVal) :
    List Field → String → String → Option String
  | [], _, buf => some (buf ++ "\x7d")
  | f :: rest, comma, buf =>
    let buf := writeKeyGraphQL f (buf ++ comma)
    let step : Option String :=
      if f.name == longitudeName then (coordinate[0]?).map (fun v => buf ++ gfmt v)
      else if f.name == latitudeName then (coordinate[1]?).map (fun v => buf ++ gfmt v)
      else if f.name == typenameName then some (buf ++ "\x22Point\x22")
      else some buf
    match step with
    | none => none
    | some buf => completePointAux coordinate rest "," buf

/-- `completePoint(field, coordinate, buf)` from the source. -/
def completePoint (field : Field) (coordinate : List JsonVal) (buf : String) :
    Option String :=
  completePointAux coordinate field.selectionSet "" (buf ++ "\x7b")

/-- The loop of `completePolygon` over the points of one ring. -/
def completePolygonPoints (f2 : Field) :
    List JsonVal → String → String → Option String
  | [], _, buf => some buf
  | point :: rest, comma, buf =>
    match completePoint f2 (asArr point) (buf ++ comma) with
    | none => none
    | some buf => completePolygonPoints f2 rest "," buf

/-- The loop of `completePolygon` over the selection set of the
`coordinates` field, for one ring. -/
def completePolygonInner (ring : JsonVal) :
    List Field → String → String → Option String
  | [], _, buf => some (buf ++ "\x7d")
  | f2 :: rest, comma, buf =>
    let buf := writeKeyGraphQL f2 (buf ++ comma)
    let step : Option String :=
      if f2.name == pointsName then
        match completePolygonPoints f2 (asArr ring) "" (buf ++ "[") with
        | none => none
        | some b => some (b ++ "]")
      else if f2.name == typenameName then some (buf ++ "\x22PointList\x22")
      else some buf
    match step with
    | none => none
    | some buf => completePolygonInner ring rest "," buf

/-- The loop of `completePolygon` over the rings of the polygon. -/
def completePolygonRings (f1 : Field) :
    List JsonVal → String → String → Option String
  | [], _, buf => some buf
  | ring :: rest, comma, buf =>
    match completePolygonInner ring f1.selectionSet "" (buf ++ comma ++ "\x7b") with
    | none => none
    | some buf => completePolygonRings f1 rest "," buf

/-- The outer loop of `completePolygon` over the field's selection set. -/
def completePolygonAux (polygon : List JsonVal) :
    List Field → String → String → Option String
  | [], _, buf => some (buf ++ "\x7d")
  | f1 :: rest, comma, buf =>
    let buf := writeKeyGraphQL f1 (buf ++ comma)
    let step : Option String :=
      if f1.name == coordinatesName then
        match completePolygonRings f1 polygon "" (buf ++ "[") with
        | none => none
        | some b => some (b ++ "]")
      else if f1.name == typenameName then some (buf ++ "\x22Polygon\x22")
      else some buf
    match step with
    | none => none
    | some buf => completePolygonAux polygon rest "," buf

/-- `completePolygon(field, polygon, buf)` from the source. -/
def completePolygon (field : Field) (polygon : List JsonVal) (buf : String) :
    Option String :=
  completePolygonAux polygon field.selectionSet "" (buf ++ "\x7b")

/-- The loop of `completeMultiPolygon` over the polygons. -/
def completeMultiPolygonList (f : Field) :
    List JsonVal → String → String → Option String
  | [], _, buf => some buf
  | poly :: rest, comma, buf =>
    match completePolygon f (asArr poly) (buf ++ comma) with
    | none => none
    | some buf => completeMultiPolygonList f rest "," buf

/-- The outer loop of `completeMultiPolygon` over the field's selection
set. -/
def completeMultiPolygonAux (mp : List JsonVal) :
    List Field → String → String → Option String
  | [], _, buf => some (buf ++ "\x7d")
  | f :: rest, comma, buf =>
    let buf := writeKeyGraphQL f (buf ++ comma)
    let step : Option String :=
      if f.name == polygonsName then
        match completeMultiPolygonList f mp "" (buf ++ "[") with
        | none => none
        | some b => some (b ++ "]")
      else if f.name == typenameName then some (buf ++ "\x22MultiPolygon\x22")
      else some buf
    match step with
    | none => none
    | some buf => completeMultiPolygonAux mp rest "," buf

/-- `completeMultiPolygon(field, multiPolygon, buf)` from the source. -/
def completeMultiPolygon (field : Field) (mp : List JsonVal) (buf : String) :
    Option String :=
  completeMultiPolygonAux mp field.selectionSet "" (buf ++ "\x7b")

/-- The outcome of `completeGeoObject`: success with the new buffer, a
`*x.GqlError` with the buffer as the call left it, or a Go panic. -/
inductive GeoResult where
  | done (out : String)
  | gerr (e : GqlError) (out : String)
  | panicked
deriving DecidableEq

/-- `completeGeoObject(path, field, val, buf)` from the source. -/
def completeGeoObject (path : List PathElem) (field : Field)
    (val : List (String × JsonVal)) (buf : String) : GeoResult :=
  match (lookupLast val coordinatesName).bind asArrOpt with
  | none => .gerr (field.gqlErrorf path "missing coordinates in geojson value: %v" []) buf
  | some coordinate =>
    let typ := ((lookupLast val "type").bind asStrOpt).getD ""
    if typ == pointName then
      match completePoint field coordinate buf with
      | none => .panicked
      | some b => .done b
    else if typ == polygonName then
      match completePolygon field coordinate buf with
      | none => .panicked
      | some b => .done b
    else if typ == multiPolygonName then
      match completeMultiPolygon field coordinate buf with
      | none => .panicked
      | some b => .done b
    else .gerr (field.gqlErrorf path "unsupported geo type: %s" [typ]) buf

/-! ### The core recursive encoder

`encodeGraphQL` and its internal joined-traversal loop are mutually
recursive through an unbounded amount of work, so both are driven by one
fuel counter.  They are realized as a single fuel-indexed function
`encAny` over a call descriptor, with `encodeGraphQL` and `loopEnc` as the
two entry points; the straight-line tail of each loop iteration (Step-3,
closing `]`, and Step-4, the comma) is factored into the pure state
function `stepClose`. -/

/-- The outcome of a call to `encodeGraphQL`: the Go boolean result
together with the buffer and error list after the call, a Go panic, or
fuel exhaustion (the Go loop would still be running). -/
inductive EncResult where
  | ok (b : Bool) (out : String) (errs : List GqlError)
  | panicked
  | fuelOut
deriving DecidableEq

/-- The typename-harvest loop at the head of the child list (Phase A):
returns the harvested `dgraphTypes`, the extended error list and the
remaining children, or `none` for the panic raised by
`typeStr[1 : len(typeStr)-1]` when the scalar value has fewer than two
bytes. -/
def harvestTypes (dgraphTypeAttrId : Nat) (parentPath : List PathElem) :
    List FastJsonNode → List String → List GqlError →
    Option (List String × List GqlError × List FastJsonNode)
  | [], acc, errs => some (acc, errs, [])
  | c :: rest, acc, errs =>
    if c.attr == dgraphTypeAttrId then
      match c.scalarVal with
      | .error e =>
        harvestTypes dgraphTypeAttrId parentPath rest acc
          (errs ++ [{ message := e, args := [], path := parentPath }])
      | .ok v =>
        let typeStr := v.getD ""
        if typeStr.length < 2 then none
        else harvestTypes dgraphTypeAttrId parentPath rest
          (acc ++ [(typeStr.drop 1).dropRight 1]) errs
    else some (acc, errs, c :: rest)

/-- The loop context fixed for the whole joined traversal of one object:
the `dgraph.type` attribute id, the attribute of the node being encoded
(for the `_root_` check), the harvested type names, the selection set and
the parent path. -/
structure LoopCtx where
  dgraphTypeAttrId : Nat
  fjAttr : Nat
  dgraphTypes : List String
  sels : List Field
  parentPath : List PathElem
deriving Inhabited

/-- The mutable state of the joined-traversal loop: the remaining physical
children, the selection index `i`, the consecutive-items counter `cnt`,
`keyEndPos`, `curSelectionIsList`, the buffer and the error list. -/
structure LoopState where
  child : List FastJsonNode
  i : Nat
  cnt : Nat
  keyEndPos : Nat
  isL : Bool
  out : String
  errList : List GqlError

/-- The last node of the contiguous run of `attrId`-attributed nodes
starting at `cur` (the `cur = next` walk of the `[T!]` failure case). -/
def lastRun (attrId : Nat) (cur : FastJsonNode) : List FastJsonNode → FastJsonNode
  | [] => cur
  | n :: rest => if n.attr == attrId then lastRun attrId n rest else cur

/-- Steps 3 and 4 at the end of one loop iteration: write the closing `]`
when the current selection is fully drained and no null replaced the list,
advance the selection index, and write the separating comma; yields the
state for the next iteration.  `curAttr` and `next` are the values of the
source's `cur` and `next` pointers at this point. -/
def stepClose (ctx : LoopCtx) (child : List FastJsonNode) (curAttr : Nat)
    (next : Option FastJsonNode) (i cnt keyEndPos : Nat) (isL nullWritten : Bool)
    (out : String) (errList : List GqlError) : LoopState :=
  let fin : Bool :=
    match next with
    | none => true
    | some n => n.attr != curAttr
  let out := if fin && (isL && !nullWritten) then out ++ "]" else out
  let i' := if fin then i + 1 else i
  let cnt' := if fin then 0 else cnt
  let out := if i' < ctx.sels.length then out ++ "," else out
  ⟨child, i', cnt', keyEndPos, isL, out, errList⟩

/-- Phase D of `encodeGraphQL`: the trailing selections for which no data
is left, followed by the closing brace. -/
def phaseD (ctx : LoopCtx) : List Field → String → List GqlError → EncResult
  | [], out, errList => .ok true (out ++ "\x7d") errList
  | curSelection :: restSel, out, errList =>
    if skipField curSelection ctx.dgraphTypes then
      let out := if restSel.isEmpty then checkAndStripComma out else out
      phaseD ctx restSel out errList
    else
      let out := writeKeyGraphQL curSelection out
      if curSelection.name == typenameName then
        let out := out ++ "\x22" ++ curSelection.typeNameFn ctx.dgraphTypes ++ "\x22"
        phaseD ctx restSel (if restSel.isEmpty then out else out ++ ",") errList
      else
        match writeGraphQLNull curSelection out out.length with
        | (true, out') => phaseD ctx restSel (if restSel.isEmpty then out' else out' ++ ",") errList
        | (false, out') =>
          .ok false out' (errList ++ [curSelection.gqlErrorf
            (ctx.parentPath ++ [.str curSelection.responseName]) errExpectedNonNull
            [curSelection.name, gqlTypeStr curSelection.typ]])

/-- A pending call of the encoder: either a fresh `encodeGraphQL` call or
an iteration of the joined-traversal loop. -/
inductive EncCall where
  | encCall (fj : FastJsonNode) (out : String) (errList : List GqlError)
      (dgraphTypeAttrId : Nat) (childSelectionSet : List Field)
      (parentField : Field) (parentPath : List PathElem)
  | loopCall (ctx : LoopCtx) (st : LoopState)

/-- The fuel-driven interpreter for `encodeGraphQL` and its loop; a direct
transcription of the source's control flow. -/
def encAny (enc : Encoder) : Nat → EncCall → EncResult
  | 0, _ => .fuelOut
  | Nat.succ fuel, .encCall fj out errList dgraphTypeAttrId childSelectionSet parentField parentPath =>
    match fj.children with
    | [] =>
      -- scalar case
      match fj.scalarVal with
      | .error e =>
        .ok false out (errList ++ [parentField.gqlErrorf parentPath e []])
      | .ok none =>
        if (parentField.typ.listType).isSome then .ok true out errList
        else .ok false out errList
      | .ok (some val) =>
        if parentField.typ.isGeo then
          match (parseJson val).bind unmarshalMap with
          | none => .panicked
          | some geoVal =>
            match completeGeoObject parentPath parentField geoVal out with
            | .panicked => .panicked
            | .gerr e b => .ok false b (errList ++ [e])
            | .done b => .ok true b errList
        else .ok true (out ++ val) errList
    | c :: cs =>
      if childSelectionSet.isEmpty then
        .ok false out (errList ++ [parentField.gqlErrorf parentPath errExpectedScalar []])
      else
        let out := out ++ "\x7b"
        match harvestTypes dgraphTypeAttrId parentPath (c :: cs) [] errList with
        | none => .panicked
        | some (dgraphTypes, errList, rest) =>
          encAny enc fuel (.loopCall
            ⟨dgraphTypeAttrId, fj.attr, dgraphTypes, childSelectionSet, parentPath⟩
            ⟨rest, 0, 0, 0, false, out, errList⟩)
  | Nat.succ fuel, .loopCall ctx st =>
    match st.child, ctx.sels[st.i]? with
    | cur :: rest, some curSelection =>
      let cnt := st.cnt + 1
      if skipField curSelection ctx.dgraphTypes then
        let i' := st.i + 1
        let out := if i' == ctx.sels.length then checkAndStripComma st.out else st.out
        let attrId := enc.idForAttr curSelection.dgraphAlias
        let child' :=
          if cur.attr == attrId then
            (cur :: rest).dropWhile (fun n => n.attr == attrId)
          else cur :: rest
        encAny enc fuel (.loopCall ctx ⟨child', i', 0, st.keyEndPos, st.isL, out, st.errList⟩)
      else
        -- Step-1: write the JSON key and the opening [ for list selections
        let stepOne : String × Nat × Bool :=
          if cnt == 1 then
            let out1 := writeKeyGraphQL curSelection st.out
            let kp := out1.length
            let l := (curSelection.typ.listType).isSome
            (if l then out1 ++ "[" else out1, kp, l)
          else (st.out, st.keyEndPos, st.isL)
        let out := stepOne.1
        let keyEndPos := stepOne.2.1
        let isL := stepOne.2.2
        -- Step-2: write the JSON value
        if curSelection.name == typenameName then
          let out := out ++ "\x22" ++ curSelection.typeNameFn ctx.dgraphTypes ++ "\x22"
          encAny enc fuel (.loopCall ctx (stepClose ctx (cur :: rest) cur.attr rest.head?
            st.i cnt keyEndPos isL false out st.errList))
        else if curSelection.dgraphAlias != enc.attrForID cur.attr then
          match writeGraphQLNull curSelection out keyEndPos with
          | (true, out') =>
            encAny enc fuel (.loopCall ctx (stepClose ctx (cur :: rest) cur.attr rest.head?
              st.i cnt keyEndPos isL true out' st.errList))
          | (false, out') =>
            .ok false out' (st.errList ++ [curSelection.gqlErrorf
              (ctx.parentPath ++ [.str curSelection.responseName]) errExpectedNonNull
              [curSelection.name, gqlTypeStr curSelection.typ]])
        else if isL && cur.getList then
          -- case 1: list selection, list node
          let itemPos := out.length
          match encAny enc fuel (.encCall cur out st.errList ctx.dgraphTypeAttrId
            curSelection.selectionSet curSelection
            (ctx.parentPath ++ [.str curSelection.responseName, .idx (cnt - 1)])) with
          | .fuelOut => .fuelOut
          | .panicked => .panicked
          | .ok true out' errs' =>
            encAny enc fuel (.loopCall ctx (stepClose ctx rest cur.attr rest.head?
              st.i cnt keyEndPos isL false out' errs'))
          | .ok false out' errs' =>
            match curSelection.typ.listType with
            | none => .panicked
            | some item =>
              if item.nullable then
                encAny enc fuel (.loopCall ctx (stepClose ctx rest cur.attr rest.head?
                  st.i cnt keyEndPos isL false (out'.take itemPos ++ "null") errs'))
              else if curSelection.typ.nullable then
                let attrId := enc.idForAttr curSelection.dgraphAlias
                let lastCur := lastRun attrId cur rest
                let afterRun := rest.dropWhile (fun n => n.attr == attrId)
                encAny enc fuel (.loopCall ctx (stepClose ctx afterRun lastCur.attr
                  afterRun.head? st.i cnt keyEndPos isL true
                  (out'.take keyEndPos ++ "null") errs'))
              else
                .ok false out' errs'
        else if !isL && (!cur.getList || ctx.fjAttr == enc.idForAttr rootSentinel) then
          -- case 4: non-list selection, non-list node (or the root node)
          match encAny enc fuel (.encCall cur out st.errList ctx.dgraphTypeAttrId
            curSelection.selectionSet curSelection
            (ctx.parentPath ++ [.str curSelection.responseName])) with
          | .fuelOut => .fuelOut
          | .panicked => .panicked
          | .ok true out' errs' =>
            encAny enc fuel (.loopCall ctx (stepClose ctx rest cur.attr rest.head?
              st.i cnt keyEndPos isL false out' errs'))
          | .ok false out' errs' =>
            match writeGraphQLNull curSelection out' keyEndPos with
            | (true, out'') =>
              encAny enc fuel (.loopCall ctx (stepClose ctx rest cur.attr rest.head?
                st.i cnt keyEndPos isL true out'' errs'))
            | (false, out'') => .ok false out'' errs'
        else if !isL then
          -- case 3: non-list selection, list node
          let errs' := st.errList ++ [curSelection.gqlErrorf
            (ctx.parentPath ++ [.str curSelection.responseName]) errExpectedSingleItem []]
          match writeGraphQLNull curSelection out keyEndPos with
          | (false, out') => .ok false out' errs'
          | (true, out') =>
            let attrId := enc.idForAttr curSelection.dgraphAlias
            let afterRun := rest.dropWhile (fun n => n.attr == attrId)
            encAny enc fuel (.loopCall ctx (stepClose ctx afterRun cur.attr afterRun.head?
              st.i cnt keyEndPos isL true out' errs'))
        else
          -- case 2: list selection, non-list node
          let errs' := st.errList ++ [curSelection.gqlErrorf
            (ctx.parentPath ++ [.str curSelection.responseName]) errExpectedList []]
          match writeGraphQLNull curSelection out keyEndPos with
          | (false, out') => .ok false out' errs'
          | (true, out') =>
            encAny enc fuel (.loopCall ctx (stepClose ctx rest cur.attr rest.head?
              st.i cnt keyEndPos isL true out' errs'))
    | _, _ =>
      phaseD ctx (ctx.sels.drop st.i) st.out st.errList

/-- `encodeGraphQL(fj, out, errList, dgraphTypeAttrId, childSelectionSet,
parentField, parentPath)` on the encoder `enc`, with `fuel` bounding the
amount of work. -/
def encodeGraphQL (enc : Encoder) (fuel : Nat) (fj : FastJsonNode) (out : String)
    (errList : List GqlError) (dgraphTypeAttrId : Nat) (childSelectionSet : List Field)
    (parentField : Field) (parentPath : List PathElem) : EncResult :=
  encAny enc fuel (.encCall fj out errList dgraphTypeAttrId childSelectionSet
    parentField parentPath)

/-- One iteration of the joined-traversal loop of `encodeGraphQL` (the
`for child != nil && i < len(childSelectionSet)` loop), as an entry point
of the interpreter. -/
def loopEnc (enc : Encoder) (fuel : Nat) (ctx : LoopCtx) (st : LoopState) : EncResult :=
  encAny enc fuel (.loopCall ctx st)

/-! ### Concrete fixtures used by witnesses and counterexamples -/

/-- The attribute interner of the concrete examples, forward direction. -/
def exIdForAttr : String → Nat
  | "dgraph.type" => 0
  | "name" => 1
  | "age" => 2
  | "friend" => 3
  | "_root_" => 4
  | "loc" => 5
  | _ => 99

/-- The attribute interner of the concrete examples, inverse direction. -/
def exAttrForID : Nat → String
  | 0 => "dgraph.type"
  | 1 => "name"
  | 2 => "age"
  | 3 => "friend"
  | 4 => "_root_"
  | 5 => "loc"
  | _ => ""

/-- The example encoder. -/
def exEnc : Encoder := ⟨exIdForAttr, exAttrForID⟩

/-- A scalar field fixture named and aliased `n`. -/
def exScalarField (n : String) (isNullable : Bool) : Field :=
  .mk n n n (.scalar "String" isNullable false) false true (fun _ => true) (fun _ => n) []

/-- A geo-typed (Point) field fixture named `loc` with the given selection
set. -/
def exGeoField (sel : List Field) : Field :=
  .mk "loc" "loc" "loc" (.scalar "Point" true true) false true (fun _ => true)
    (fun _ => "Point") sel

/-- A childless node carrying scalar bytes. -/
def exLeaf (a : Nat) (v : String) : FastJsonNode := .node a false (.ok (some v)) []

/-! ### Claim theorems -/

/-- C2: `writeGraphQLNull(f, out, keyEndPos)` first truncates `out` to
`keyEndPos`; then a list-typed field gets `[]` appended with result true
(regardless of the list wrapper's nullability, so a list field with no data
always yields `[]`, never `null`), a nullable field gets `null` appended
with result true, and any other field gives result false with the buffer
left truncated. -/
theorem writeGraphQLNull_spec (f : Field) (out : String) (keyEndPos : Nat)
    (_h : keyEndPos ≤ out.length) :
    writeGraphQLNull f out keyEndPos =
      if (f.typ.listType).isSome then (true, out.take keyEndPos ++ "[]")
      else if f.typ.nullable then (true, out.take keyEndPos ++ "null")
      else (false, out.take keyEndPos) := rfl

/-- Witness for C2 at a concrete field and buffer. -/
theorem writeGraphQLNull_spec_witness :
    writeGraphQLNull (exScalarField "age" true) "xy" 1 =
      if (((exScalarField "age" true).typ.listType)).isSome then
        (true, ("xy" : String).take 1 ++ "[]")
      else if ((exScalarField "age" true).typ.nullable) then
        (true, ("xy" : String).take 1 ++ "null")
      else (false, ("xy" : String).take 1) :=
  writeGraphQLNull_spec (exScalarField "age" true) "xy" 1 (by decide)

/-- C4: `skipField f ts` is true exactly when the skip directive is set,
the include directive is unset, or `ts` is non-empty and
`IncludeInterfaceField ts` is false; in the embedding it is a pure function
of `f` and `ts` alone, with no access to the buffer, the error list or the
traversal state. -/
theorem skipField_iff (f : Field) (ts : List String) :
    skipField f ts = true ↔
      f.skipDir = true ∨ f.incl = false ∨ (ts ≠ [] ∧ f.includeInterfaceField ts = false) := by
  unfold skipField
  cases hs : f.skipDir <;> cases hi : f.incl <;> cases hf : f.includeInterfaceField ts <;>
    cases ts <;> simp_all

/-- C5: on a childless node whose scalar read succeeded with an absent
(nil) value, `encodeGraphQL` appends no error, leaves the buffer unchanged,
and returns true exactly when the parent field's type is a list type. -/
theorem encodeGraphQL_missing_scalar (enc : Encoder) (fuel : Nat) (fj : FastJsonNode)
    (out : String) (errList : List GqlError) (dtid : Nat) (sels : List Field)
    (parentField : Field) (path : List PathElem)
    (hch : fj.children = []) (hval : fj.scalarVal = .ok none) :
    encodeGraphQL enc (fuel + 1) fj out errList dtid sels parentField path =
      .ok ((parentField.typ.listType).isSome) out errList := by
  unfold encodeGraphQL
  rw [encAny, hch, hval]
  cases hb : (parentField.typ.listType).isSome <;> simp [hb]

/-- Witness for C5: a childless node with a nil scalar value under a
non-list parent field returns false with nothing appended. -/
theorem encodeGraphQL_missing_scalar_witness :
    encodeGraphQL exEnc 3 (.node 1 false (.ok none) []) "A" [] 0 []
      (exScalarField "name" true) [] =
      .ok (((exScalarField "name" true).typ.listType).isSome) "A" [] :=
  encodeGraphQL_missing_scalar exEnc 2 (.node 1 false (.ok none) []) "A" [] 0 []
    (exScalarField "name" true) [] rfl rfl

/-- C9: for a geo-typed parent field, the scalar bytes are unmarshalled
under a fatal check: if they do not parse as JSON the encoder panics
instead of appending an error and returning false. -/
theorem encodeGraphQL_geo_unparsable_panics (enc : Encoder) (fuel : Nat)
    (fj : FastJsonNode) (out : String) (errList : List GqlError) (dtid : Nat)
    (sels : List Field) (parentField : Field) (path : List PathElem) (val : String)
    (hch : fj.children = []) (hval : fj.scalarVal = .ok (some val))
    (hgeo : parentField.typ.isGeo = true) (hparse : parseJson val = none) :
    encodeGraphQL enc (fuel + 1) fj out errList dtid sels parentField path = .panicked := by
  unfold encodeGraphQL
  rw [encAny, hch, hval]
  simp [hgeo, hparse]

/-- Witness for C9: the bytes `@@@` do not parse, so the geo path
panics. -/
theorem encodeGraphQL_geo_unparsable_panics_witness :
    encodeGraphQL exEnc 5 (.node 5 false (.ok (some "@@@")) []) "" [] 0 []
      (exGeoField []) [] = .panicked :=
  encodeGraphQL_geo_unparsable_panics exEnc 4 (.node 5 false (.ok (some "@@@")) [])
    "" [] 0 [] (exGeoField []) [] "@@@" rfl rfl rfl rfl

/-- C3 (failing input): a geo Point value whose selection set requests
`coordinates` — a key inside the supported geo subset, legitimate for a
Polygon selection — makes `completePoint` emit the key with no value at
all, so `encodeGraphQL` succeeds while emitting a byte stream that is not
syntactically valid JSON. -/
theorem encodeGraphQL_geo_emits_invalid_json :
    encodeGraphQL exEnc 5
        (exLeaf 5 "\x7b\x22type\x22:\x22Point\x22,\x22coordinates\x22:[1,2]\x7d")
        "" [] 0 [] (exGeoField [exScalarField "coordinates" true]) [] =
      .ok true "\x7b\x22coordinates\x22:\x7d" [] ∧
    (parseJson "\x7b\x22coordinates\x22:\x7d").isNone = true := by
  constructor
  · decide
  · decide

/-- C7: when the current selection is `__typename`, the encoder writes the
quoted result of `TypeName(dgraphTypes)` as the field's value and hands the
unchanged physical child list (`cur :: rest`) to the rest of the loop: no
physical node is consumed, and the same node is still current when the next
selection is processed. -/
theorem loopEnc_typename (enc : Encoder) (fuel : Nat) (ctx : LoopCtx)
    (cur : FastJsonNode) (rest : List FastJsonNode) (i kp0 : Nat) (isL0 : Bool)
    (out : String) (errs : List GqlError) (sel : Field)
    (hsel : ctx.sels[i]? = some sel)
    (hskip : skipField sel ctx.dgraphTypes = false)
    (hname : sel.name = typenameName) :
    loopEnc enc (fuel + 1) ctx ⟨cur :: rest, i, 0, kp0, isL0, out, errs⟩ =
      loopEnc enc fuel ctx (stepClose ctx (cur :: rest) cur.attr rest.head? i 1
        (writeKeyGraphQL sel out).length ((sel.typ.listType).isSome) false
        ((if (sel.typ.listType).isSome then writeKeyGraphQL sel out ++ "["
          else writeKeyGraphQL sel out)
          ++ "\x22" ++ sel.typeNameFn ctx.dgraphTypes ++ "\x22") errs) := by
  unfold loopEnc
  rw [encAny]
  simp only [hsel, hskip, hname, beq_self_eq_true, if_true, Bool.false_eq_true, if_false]

/-- The `__typename` field fixture: resolves to the head of the harvested
type names. -/
def exTypenameField : Field :=
  .mk "__typename" "__typename" "__typename" (.scalar "String" false false) false true
    (fun _ => true) (fun ts => (ts.head?).getD "Thing") []

/-- Witness for C7 at a concrete loop state: one data node, one
`__typename` selection. -/
theorem loopEnc_typename_witness :
    loopEnc exEnc 3 ⟨0, 4, ["Human"], [exTypenameField], []⟩
        ⟨[exLeaf 1 "\x22Alice\x22"], 0, 0, 0, false, "\x7b", []⟩ =
      loopEnc exEnc 2 ⟨0, 4, ["Human"], [exTypenameField], []⟩
        (stepClose ⟨0, 4, ["Human"], [exTypenameField], []⟩ [exLeaf 1 "\x22Alice\x22"]
          (exLeaf 1 "\x22Alice\x22").attr ([] : List FastJsonNode).head? 0 1
          (writeKeyGraphQL exTypenameField "\x7b").length
          ((exTypenameField.typ.listType).isSome) false
          ((if (exTypenameField.typ.listType).isSome then
              writeKeyGraphQL exTypenameField "\x7b" ++ "["
            else writeKeyGraphQL exTypenameField "\x7b")
            ++ "\x22" ++ exTypenameField.typeNameFn ["Human"] ++ "\x22") []) :=
  loopEnc_typename exEnc 2 ⟨0, 4, ["Human"], [exTypenameField], []⟩
    (exLeaf 1 "\x22Alice\x22") [] 0 0 false "\x7b" [] exTypenameField rfl rfl rfl

/-- C6: at an aligned node whose list-ness disagrees with the selection
(parent not being the root sentinel), the encoder appends exactly one
shape-mismatch error and writes null via `writeGraphQLNull` (propagating
failure when the Null Writer refuses): a non-list selection on a
list-tagged node gets the expected-single-item error and all contiguous
children of the alias are skipped; a list selection on a non-list node gets
the expected-list error and the cursor advances by exactly one node. -/
theorem loopEnc_shape_mismatch (enc : Encoder) (fuel : Nat) (ctx : LoopCtx)
    (cur : FastJsonNode) (rest : List FastJsonNode) (i kp0 : Nat) (isL0 : Bool)
    (out : String) (errs : List GqlError) (sel : Field)
    (hsel : ctx.sels[i]? = some sel)
    (hskip : skipField sel ctx.dgraphTypes = false)
    (hname : sel.name ≠ typenameName)
    (halign : sel.dgraphAlias = enc.attrForID cur.attr)
    (hroot : (ctx.fjAttr == enc.idForAttr rootSentinel) = false) :
    (sel.typ.listType = none → cur.getList = true →
      loopEnc enc (fuel + 1) ctx ⟨cur :: rest, i, 0, kp0, isL0, out, errs⟩ =
        (if (writeGraphQLNull sel (writeKeyGraphQL sel out)
              (writeKeyGraphQL sel out).length).1 then
          loopEnc enc fuel ctx (stepClose ctx
            (rest.dropWhile (fun n => n.attr == enc.idForAttr sel.dgraphAlias))
            cur.attr
            (rest.dropWhile (fun n => n.attr == enc.idForAttr sel.dgraphAlias)).head?
            i 1 (writeKeyGraphQL sel out).length false true
            (writeGraphQLNull sel (writeKeyGraphQL sel out)
              (writeKeyGraphQL sel out).length).2
            (errs ++ [sel.gqlErrorf (ctx.parentPath ++ [.str sel.responseName])
              errExpectedSingleItem []]))
        else .ok false
          (writeGraphQLNull sel (writeKeyGraphQL sel out)
            (writeKeyGraphQL sel out).length).2
          (errs ++ [sel.gqlErrorf (ctx.parentPath ++ [.str sel.responseName])
            errExpectedSingleItem []]))) ∧
    ((sel.typ.listType).isSome = true → cur.getList = false →
      loopEnc enc (fuel + 1) ctx ⟨cur :: rest, i, 0, kp0, isL0, out, errs⟩ =
        loopEnc enc fuel ctx (stepClose ctx rest cur.attr rest.head? i 1
          (writeKeyGraphQL sel out).length true true
          (writeGraphQLNull sel (writeKeyGraphQL sel out ++ "[")
            (writeKeyGraphQL sel out).length).2
          (errs ++ [sel.gqlErrorf (ctx.parentPath ++ [.str sel.responseName])
            errExpectedList []]))) := by
  constructor
  · intro hnone hl
    unfold loopEnc
    rw [encAny]
    simp only [hsel, hskip, hname, hnone, hl, hroot, halign, bne_self_eq_false,
      Bool.false_eq_true, if_false, Option.isSome_none, Bool.false_and, Bool.not_false,
      Bool.true_and, Bool.or_false, Bool.not_true, writeGraphQLNull]
    by_cases hnul : sel.typ.nullable = true <;> simp [hname, hnul]
  · intro hsome hl
    unfold loopEnc
    rw [encAny]
    simp only [hsel, hskip, hname, hsome, hl, hroot, halign, bne_self_eq_false,
      Bool.false_eq_true, if_false, Bool.true_and, Bool.and_false, Bool.not_true,
      Bool.false_and, Bool.false_or]
    simp [writeGraphQLNull, hsome, hname]

/-- C1: in the aligned case of a list selection over a list-tagged node,
when the recursive encode of the list item returns failure: a nullable item
type (`[T]`) rewinds the buffer to the position captured just before the
item and writes `null` as the item; otherwise a nullable wrapper (`[T!]`)
rewinds to the key-end offset, writes `null` for the whole list, suppresses
the closing `]` (the `nullWritten` flag handed to `stepClose`), and skips
all remaining contiguous children of the alias; otherwise (`[T!]!`) the
call returns false with the buffer and error list exactly as the inner call
left them — no new error is appended. -/
theorem loopEnc_list_item_failure (enc : Encoder) (fuel : Nat) (ctx : LoopCtx)
    (cur : FastJsonNode) (rest : List FastJsonNode) (i cnt0 kp0 : Nat) (isL0 : Bool)
    (out out' : String) (errs errs' : List GqlError) (sel : Field) (item : GqlType)
    (hsel : ctx.sels[i]? = some sel)
    (hskip : skipField sel ctx.dgraphTypes = false)
    (hname : sel.name ≠ typenameName)
    (halign : sel.dgraphAlias = enc.attrForID cur.attr)
    (hlist : sel.typ.listType = some item)
    (hnl : cur.getList = true)
    (hisL : cnt0 = 0 ∨ isL0 = true)
    (hrec : encodeGraphQL enc fuel cur
        (if cnt0 = 0 then writeKeyGraphQL sel out ++ "[" else out) errs
        ctx.dgraphTypeAttrId sel.selectionSet sel
        (ctx.parentPath ++ [.str sel.responseName, .idx cnt0]) = .ok false out' errs') :
    loopEnc enc (fuel + 1) ctx ⟨cur :: rest, i, cnt0, kp0, isL0, out, errs⟩ =
      (if item.nullable then
        loopEnc enc fuel ctx (stepClose ctx rest cur.attr rest.head? i (cnt0 + 1)
          (if cnt0 = 0 then (writeKeyGraphQL sel out).length else kp0) true false
          (out'.take (if cnt0 = 0 then writeKeyGraphQL sel out ++ "[" else out).length
            ++ "null") errs')
      else if sel.typ.nullable then
        loopEnc enc fuel ctx (stepClose ctx
          (rest.dropWhile (fun n => n.attr == enc.idForAttr sel.dgraphAlias))
          (lastRun (enc.idForAttr sel.dgraphAlias) cur rest).attr
          (rest.dropWhile (fun n => n.attr == enc.idForAttr sel.dgraphAlias)).head?
          i (cnt0 + 1) (if cnt0 = 0 then (writeKeyGraphQL sel out).length else kp0) true true
          (out'.take (if cnt0 = 0 then (writeKeyGraphQL sel out).length else kp0)
            ++ "null") errs')
      else .ok false out' errs') := by
  unfold loopEnc
  rw [encAny]
  rw [encodeGraphQL] at hrec
  by_cases hc : cnt0 = 0
  · subst hc
    simp only [reduceIte] at hrec
    simp only [hsel, hskip, hname, halign, hlist, hnl, bne_self_eq_false,
      Bool.false_eq_true, if_false, Option.isSome_some, Bool.true_and]
    by_cases hin : item.nullable = true <;>
      by_cases hwn : sel.typ.nullable = true <;>
        simp [hname, hin, hwn, hrec, halign]
  · have hisL' : isL0 = true := hisL.resolve_left hc
    have hbeq : (cnt0 + 1 == 1) = false := by
      simp only [beq_eq_false_iff_ne, ne_eq]
      omega
    rw [if_neg hc] at hrec
    simp only [hsel, hskip, hname, halign, hlist, hnl, hisL', hbeq, if_neg hc,
      bne_self_eq_false, Bool.false_eq_true, if_false, Option.isSome_some, Bool.true_and]
    by_cases hin : item.nullable = true <;>
      by_cases hwn : sel.typ.nullable = true <;>
        simp [hname, hin, hwn, hrec, halign, if_neg hc]

/-- A list-of-persons field fixture named `friend`, with the given item and
wrapper nullability. -/
def exFriendList (itemNullable wrapperNullable : Bool) : Field :=
  .mk "friend" "friend" "friend" (.list (.scalar "Person" itemNullable false) wrapperNullable)
    false true (fun _ => true) (fun _ => "P") [exScalarField "name" false]

/-- Witness for C6 at a concrete loop state: a list-tagged `friend` node
under a non-list nullable `friend` selection yields the
expected-single-item error and a null value. -/
theorem loopEnc_shape_mismatch_witness :
    loopEnc exEnc 3 ⟨0, 1, [], [exScalarField "friend" true], []⟩
        ⟨[.node 3 true (.ok none) []], 0, 0, 0, false, "", []⟩ =
      .ok true "\x22friend\x22:null\x7d"
        [⟨errExpectedSingleItem, [], [.str "friend"]⟩] :=
  (loopEnc_shape_mismatch exEnc 2 ⟨0, 1, [], [exScalarField "friend" true], []⟩
    (.node 3 true (.ok none) []) [] 0 0 false "" [] (exScalarField "friend" true)
    rfl rfl (by decide) rfl rfl).1 rfl rfl

/-- Witness for C1 at a concrete loop state: a failing list item under a
`[Person]` selection (nullable items) is replaced by `null` inside the
list. -/
theorem loopEnc_list_item_failure_witness :
    loopEnc exEnc 3 ⟨0, 1, [], [exFriendList true true], []⟩
        ⟨[.node 3 true (.error "oops") []], 0, 0, 0, false, "", []⟩ =
      .ok true "\x22friend\x22:[null]\x7d"
        [⟨"oops", [], [.str "friend", .idx 0]⟩] :=
  loopEnc_list_item_failure exEnc 2 ⟨0, 1, [], [exFriendList true true], []⟩
    (.node 3 true (.error "oops") []) [] 0 0 0 false "" "\x22friend\x22:[" []
    [⟨"oops", [], [.str "friend", .idx 0]⟩] (exFriendList true true)
    (.scalar "Person" true false)
    rfl rfl (by decide) rfl rfl rfl (Or.inl rfl) rfl

/-- Every step of `completePointAux` succeeds when the coordinate array has
at least two elements. -/
theorem completePointAux_isSome (coordinate : List JsonVal)
    (h : 2 ≤ coordinate.length) :
    ∀ (fs : List Field) (comma buf : String),
      (completePointAux coordinate fs comma buf).isSome = true := by
  intro fs
  induction fs with
  | nil => intro comma buf; rfl
  | cons f rest ih =>
    intro comma buf
    unfold completePointAux
    have h0 : coordinate[0]? = some (coordinate.get ⟨0, by omega⟩) :=
      List.getElem?_eq_getElem (by omega)
    have h1 : coordinate[1]? = some (coordinate.get ⟨1, by omega⟩) :=
      List.getElem?_eq_getElem (by omega)
    by_cases e1 : f.name == longitudeName <;>
      by_cases e2 : f.name == latitudeName <;>
        by_cases e3 : f.name == typenameName <;>
          simp [e1, e2, e3, h0, h1, ih]

/-- `completePointAux` panics when `latitude` is selected and the
coordinate array has fewer than two elements. -/
theorem completePointAux_latitude_short (coordinate : List JsonVal)
    (h : coordinate.length ≤ 1) :
    ∀ (fs : List Field) (comma buf : String),
      (∃ f ∈ fs, f.name = latitudeName) →
      completePointAux coordinate fs comma buf = none := by
  intro fs
  induction fs with
  | nil => intro comma buf hex; rcases hex with ⟨f, hf, _⟩; cases hf
  | cons f rest ih =>
    intro comma buf hex
    unfold completePointAux
    have h1 : coordinate[1]? = none := by
      rw [List.getElem?_eq_none]; omega
    by_cases e2 : f.name = latitudeName
    · have d1 : (latitudeName == longitudeName) = false := by decide
      simp [e2, d1, h1]
    · rcases hex with ⟨g, hg, hgl⟩
      rcases List.mem_cons.mp hg with rfl | hgrest
      · exact absurd hgl e2
      · have hrest : ∃ f ∈ rest, f.name = latitudeName := ⟨g, hgrest, hgl⟩
        by_cases e1 : f.name == longitudeName
        · rcases hg0 : coordinate[0]? with _ | v0
          · simp [e1, hg0]
          · simp [e1, hg0, ih _ _ hrest]
        · by_cases e3 : f.name == typenameName <;>
            simp [e1, e2, e3, ih _ _ hrest]

/-- C10: `completeGeoObject` validates only that `coordinates` is a non-nil
array, and it does so before inspecting `type` (a value that lacks
coordinates reports the missing-coordinates error whatever its `type` is);
it never validates arity, so `completePoint`'s unconditional reads of
coordinate elements 0 and 1 panic when `latitude` is selected on an array
shorter than two elements and are in bounds whenever the array has at least
two. -/
theorem completeGeoObject_validation :
    (∀ (path : List PathElem) (field : Field) (val : List (String × JsonVal)) (buf : String),
      (lookupLast val coordinatesName).bind asArrOpt = none →
      completeGeoObject path field val buf =
        .gerr (field.gqlErrorf path "missing coordinates in geojson value: %v" []) buf) ∧
    (∀ (field : Field) (coordinate : List JsonVal) (buf : String),
      coordinate.length ≤ 1 →
      (∃ f ∈ field.selectionSet, f.name = latitudeName) →
      completePoint field coordinate buf = none) ∧
    (∀ (field : Field) (coordinate : List JsonVal) (buf : String),
      2 ≤ coordinate.length →
      (completePoint field coordinate buf).isSome = true) := by
  refine ⟨?_, ?_, ?_⟩
  · intro path field val buf hco
    unfold completeGeoObject
    rw [hco]
  · intro field coordinate buf hlen hex
    exact completePointAux_latitude_short coordinate hlen _ _ _ hex
  · intro field coordinate buf hlen
    exact completePointAux_isSome coordinate hlen _ _ _

/-- Witness for C10: a geo value that both lacks coordinates and has an
unsupported type reports the missing-coordinates error; a one-element
coordinate array with `latitude` selected panics; a two-element array
completes. -/
theorem completeGeoObject_validation_witness :
    completeGeoObject [] (exGeoField [exScalarField "latitude" true])
        [("type", .jstr "Garbage")] "" =
      .gerr ((exGeoField [exScalarField "latitude" true]).gqlErrorf []
        "missing coordinates in geojson value: %v" []) "" ∧
    completePoint (exGeoField [exScalarField "latitude" true]) [.jnum "1"] "" = none ∧
    (completePoint (exGeoField [exScalarField "latitude" true])
      [.jnum "1", .jnum "2"] "").isSome = true :=
  ⟨completeGeoObject_validation.1 [] (exGeoField [exScalarField "latitude" true])
      [("type", .jstr "Garbage")] "" rfl,
   completeGeoObject_validation.2.1 (exGeoField [exScalarField "latitude" true])
      [.jnum "1"] "" (by decide)
      ⟨exScalarField "latitude" true, List.mem_cons_self _ _, rfl⟩,
   completeGeoObject_validation.2.2 (exGeoField [exScalarField "latitude" true])
      [.jnum "1", .jnum "2"] "" (by decide)⟩

/-! ### Characterization of the geo completers' output shape (for C8) -/

/-- The supported geo completion keys listed by the spec's boundary
property. -/
def geoSupportedKeys : List String :=
  [longitudeName, latitudeName, coordinatesName, pointsName, polygonsName, typenameName]

/-- Whether `pat` occurs as a contiguous run inside `s`. -/
def infixOccurs (pat : List Char) : List Char → Bool
  | [] => List.isPrefixOf pat []
  | c :: rest => List.isPrefixOf pat (c :: rest) || infixOccurs pat rest

/-- Whether `k` occurs as a quoted JSON object key (followed by a colon) in
the emitted bytes. -/
def keyOccurs (k s : String) : Bool :=
  infixOccurs ("\x22" ++ k ++ "\x22:").data s.data

/-- The key part of one emitted member: the field's response name. -/
def keyStr (f : Field) : String := "\x22" ++ f.responseName ++ "\x22:"

/-- Join members: the first is preceded by `comma`, the others by `,`. -/
def commaJoin (comma : String) : List String → String
  | [] => ""
  | e :: es => comma ++ e ++ commaJoin "," es

/-- Sequence a list of optional strings, propagating a panic. -/
def sequenceO : List (Option String) → Option (List String)
  | [] => some []
  | none :: _ => none
  | some x :: rest => (sequenceO rest).map (fun es => x :: es)

/-- The member `completePoint` emits for one selected field: the response
name as key; a value exactly for the names `longitude`, `latitude` and
`__typename`; an empty value for any other selected name; `none` is the
out-of-range panic. -/
def pointEntry (coordinate : List JsonVal) (f : Field) : Option String :=
  if f.name == longitudeName then (coordinate[0]?).map (fun v => keyStr f ++ gfmt v)
  else if f.name == latitudeName then (coordinate[1]?).map (fun v => keyStr f ++ gfmt v)
  else if f.name == typenameName then some (keyStr f ++ "\x22Point\x22")
  else some (keyStr f)

/-- The bytes `completePoint` appends to the buffer. -/
def pointContent (f : Field) (coordinate : List JsonVal) : Option String :=
  (sequenceO (f.selectionSet.map (pointEntry coordinate))).map
    (fun es => "\x7b" ++ commaJoin "" es ++ "\x7d")

/-- The member `completePolygon`'s inner loop emits for one field of the
`coordinates` selection, at one ring. -/
def polygonInnerEntry (ring : JsonVal) (f2 : Field) : Option String :=
  if f2.name == pointsName then
    (sequenceO ((asArr ring).map (fun p => pointContent f2 (asArr p)))).map
      (fun es => keyStr f2 ++ "[" ++ commaJoin "" es ++ "]")
  else if f2.name == typenameName then some (keyStr f2 ++ "\x22PointList\x22")
  else some (keyStr f2)

/-- The bytes emitted for one ring of a polygon. -/
def ringContent (f1 : Field) (ring : JsonVal) : Option String :=
  (sequenceO (f1.selectionSet.map (polygonInnerEntry ring))).map
    (fun es => "\x7b" ++ commaJoin "" es ++ "\x7d")

/-- The member `completePolygon` emits for one selected field. -/
def polygonEntry (polygon : List JsonVal) (f1 : Field) : Option String :=
  if f1.name == coordinatesName then
    (sequenceO (polygon.map (ringContent f1))).map
      (fun es => keyStr f1 ++ "[" ++ commaJoin "" es ++ "]")
  else if f1.name == typenameName then some (keyStr f1 ++ "\x22Polygon\x22")
  else some (keyStr f1)

/-- The bytes `completePolygon` appends to the buffer. -/
def polygonContent (f : Field) (polygon : List JsonVal) : Option String :=
  (sequenceO (f.selectionSet.map (polygonEntry polygon))).map
    (fun es => "\x7b" ++ commaJoin "" es ++ "\x7d")

/-- The member `completeMultiPolygon` emits for one selected field. -/
def multiPolygonEntry (mp : List JsonVal) (f : Field) : Option String :=
  if f.name == polygonsName then
    (sequenceO (mp.map (fun p => polygonContent f (asArr p)))).map
      (fun es => keyStr f ++ "[" ++ commaJoin "" es ++ "]")
  else if f.name == typenameName then some (keyStr f ++ "\x22MultiPolygon\x22")
  else some (keyStr f)

/-- The bytes `completeMultiPolygon` appends to the buffer. -/
def multiPolygonContent (f : Field) (mp : List JsonVal) : Option String :=
  (sequenceO (f.selectionSet.map (multiPolygonEntry mp))).map
    (fun es => "\x7b" ++ commaJoin "" es ++ "\x7d")

/-- `completePointAux` appends one member per field, joined by commas. -/
theorem completePointAux_entries (coordinate : List JsonVal) :
    ∀ (fs : List Field) (comma buf : String),
      completePointAux coordinate fs comma buf =
        (sequenceO (fs.map (pointEntry coordinate))).map
          (fun es => buf ++ commaJoin comma es ++ "\x7d") := by
  intro fs
  induction fs with
  | nil =>
    intro comma buf
    simp [completePointAux, sequenceO, commaJoin, String.append_empty]
  | cons f rest ih =>
    intro comma buf
    unfold completePointAux
    simp only [List.map_cons]
    by_cases e1 : (f.name == longitudeName) = true
    · have hpe : pointEntry coordinate f = (coordinate[0]?).map (fun v => keyStr f ++ gfmt v) := by
        simp [pointEntry, e1]
      rcases hg : coordinate[0]? with _ | v
      · simp [e1, hg, hpe, sequenceO]
      · rw [hpe, hg]
        simp only [e1, if_true, Option.map_some, ih, sequenceO]
        cases hseq : sequenceO (rest.map (pointEntry coordinate)) <;>
          simp [hseq, commaJoin, writeKeyGraphQL, keyStr, String.append_assoc]
    · by_cases e2 : (f.name == latitudeName) = true
      · have hpe : pointEntry coordinate f = (coordinate[1]?).map (fun v => keyStr f ++ gfmt v) := by
          simp [pointEntry, e1, e2]
        rcases hg : coordinate[1]? with _ | v
        · simp [e1, e2, hg, hpe, sequenceO]
        · rw [hpe, hg]
          simp only [e1, e2, Bool.false_eq_true, if_false, if_true, Option.map_some, ih, sequenceO]
          cases hseq : sequenceO (rest.map (pointEntry coordinate)) <;>
            simp [hseq, commaJoin, writeKeyGraphQL, keyStr, String.append_assoc]
      · by_cases e3 : (f.name == typenameName) = true
        · have hpe : pointEntry coordinate f = some (keyStr f ++ "\x22Point\x22") := by
            simp [pointEntry, e1, e2, e3]
          rw [hpe]
          simp only [e1, e2, e3, Bool.false_eq_true, if_false, if_true, ih, sequenceO]
          cases hseq : sequenceO (rest.map (pointEntry coordinate)) <;>
            simp [hseq, commaJoin, writeKeyGraphQL, keyStr, String.append_assoc]
        · have hpe : pointEntry coordinate f = some (keyStr f) := by
            simp [pointEntry, e1, e2, e3]
          rw [hpe]
          simp only [e1, e2, e3, Bool.false_eq_true, if_false, ih, sequenceO]
          cases hseq : sequenceO (rest.map (pointEntry coordinate)) <;>
            simp [hseq, commaJoin, writeKeyGraphQL, keyStr, String.append_assoc]

/-- `completePoint` appends `pointContent` to the buffer. -/
theorem completePoint_content (f : Field) (coordinate : List JsonVal) (buf : String) :
    completePoint f coordinate buf = (pointContent f coordinate).map (fun s => buf ++ s) := by
  unfold completePoint pointContent
  rw [completePointAux_entries]
  cases hseq : sequenceO (f.selectionSet.map (pointEntry coordinate)) <;>
    simp [hseq, String.append_assoc]

/-- The points loop of `completePolygon` appends one Point object per
point, joined by commas. -/
theorem completePolygonPoints_content (f2 : Field) :
    ∀ (pts : List JsonVal) (comma buf : String),
      completePolygonPoints f2 pts comma buf =
        (sequenceO (pts.map (fun p => pointContent f2 (asArr p)))).map
          (fun es => buf ++ commaJoin comma es) := by
  intro pts
  induction pts with
  | nil =>
    intro comma buf
    simp [completePolygonPoints, sequenceO, commaJoin, String.append_empty]
  | cons p rest ih =>
    intro comma buf
    unfold completePolygonPoints
    rw [completePoint_content]
    simp only [List.map_cons]
    cases hpc : pointContent f2 (asArr p) with
    | none => simp [hpc, sequenceO]
    | some s =>
      simp only [hpc, Option.map_some, ih, sequenceO]
      cases hseq : sequenceO (rest.map (fun p => pointContent f2 (asArr p))) <;>
        simp [hseq, commaJoin, String.append_assoc]

/-- The inner selection loop of `completePolygon` (for one ring) appends
one member per selected field, joined by commas. -/
theorem completePolygonInner_entries (ring : JsonVal) :
    ∀ (fs : List Field) (comma buf : String),
      completePolygonInner ring fs comma buf =
        (sequenceO (fs.map (polygonInnerEntry ring))).map
          (fun es => buf ++ commaJoin comma es ++ "\x7d") := by
  intro fs
  induction fs with
  | nil =>
    intro comma buf
    simp [completePolygonInner, sequenceO, commaJoin, String.append_empty]
  | cons f2 rest ih =>
    intro comma buf
    unfold completePolygonInner
    simp only [List.map_cons]
    by_cases e1 : (f2.name == pointsName) = true
    · rw [completePolygonPoints_content]
      have hpe : polygonInnerEntry ring f2 =
          (sequenceO ((asArr ring).map (fun p => pointContent f2 (asArr p)))).map
            (fun es => keyStr f2 ++ "[" ++ commaJoin "" es ++ "]") := by
        simp [polygonInnerEntry, e1]
      rw [hpe]
      cases hin : sequenceO ((asArr ring).map (fun p => pointContent f2 (asArr p))) with
      | none => simp [e1, hin, sequenceO]
      | some es0 =>
        simp only [e1, hin, if_true, Option.map_some, ih, sequenceO]
        cases hseq : sequenceO (rest.map (polygonInnerEntry ring)) <;>
          simp [hseq, commaJoin, writeKeyGraphQL, keyStr, String.append_assoc]
    · by_cases e3 : (f2.name == typenameName) = true
      · have hpe : polygonInnerEntry ring f2 = some (keyStr f2 ++ "\x22PointList\x22") := by
          simp [polygonInnerEntry, e1, e3]
        rw [hpe]
        simp only [e1, e3, Bool.false_eq_true, if_false, if_true, ih, sequenceO]
        cases hseq : sequenceO (rest.map (polygonInnerEntry ring)) <;>
          simp [hseq, commaJoin, writeKeyGraphQL, keyStr, String.append_assoc]
      · have hpe : polygonInnerEntry ring f2 = some (keyStr f2) := by
          simp [polygonInnerEntry, e1, e3]
        rw [hpe]
        simp only [e1, e3, Bool.false_eq_true, if_false, ih, sequenceO]
        cases hseq : sequenceO (rest.map (polygonInnerEntry ring)) <;>
          simp [hseq, commaJoin, writeKeyGraphQL, keyStr, String.append_assoc]

/-- The rings loop of `completePolygon` appends one ring object per ring,
joined by commas. -/
theorem completePolygonRings_content (f1 : Field) :
    ∀ (rings : List JsonVal) (comma buf : String),
      completePolygonRings f1 rings comma buf =
        (sequenceO (rings.map (ringContent f1))).map
          (fun es => buf ++ commaJoin comma es) := by
  intro rings
  induction rings with
  | nil =>
    intro comma buf
    simp [completePolygonRings, sequenceO, commaJoin, String.append_empty]
  | cons ring rest ih =>
    intro comma buf
    unfold completePolygonRings
    rw [completePolygonInner_entries]
    simp only [List.map_cons]
    cases hrc : sequenceO (f1.selectionSet.map (polygonInnerEntry ring)) with
    | none => simp [hrc, ringContent, sequenceO]
    | some es0 =>
      simp only [hrc, Option.map_some, ih, ringContent, sequenceO]
      cases hseq : sequenceO (rest.map (ringContent f1)) <;>
        simp [hseq, ringContent, hrc, commaJoin, sequenceO, String.append_assoc]

/-- The outer selection loop of `completePolygon` appends one member per
selected field, joined by commas. -/
theorem completePolygonAux_entries (polygon : List JsonVal) :
    ∀ (fs : List Field) (comma buf : String),
      completePolygonAux polygon fs comma buf =
        (sequenceO (fs.map (polygonEntry polygon))).map
          (fun es => buf ++ commaJoin comma es ++ "\x7d") := by
  intro fs
  induction fs with
  | nil =>
    intro comma buf
    simp [completePolygonAux, sequenceO, commaJoin, String.append_empty]
  | cons f1 rest ih =>
    intro comma buf
    unfold completePolygonAux
    simp only [List.map_cons]
    by_cases e1 : (f1.name == coordinatesName) = true
    · rw [completePolygonRings_content]
      have hpe : polygonEntry polygon f1 =
          (sequenceO (polygon.map (ringContent f1))).map
            (fun es => keyStr f1 ++ "[" ++ commaJoin "" es ++ "]") := by
        simp [polygonEntry, e1]
      rw [hpe]
      cases hin : sequenceO (polygon.map (ringContent f1)) with
      | none => simp [e1, hin, sequenceO]
      | some es0 =>
        simp only [e1, hin, if_true, Option.map_some, ih, sequenceO]
        cases hseq : sequenceO (rest.map (polygonEntry polygon)) <;>
          simp [hseq, commaJoin, writeKeyGraphQL, keyStr, String.append_assoc]
    · by_cases e3 : (f1.name == typenameName) = true
      · have hpe : polygonEntry polygon f1 = some (keyStr f1 ++ "\x22Polygon\x22") := by
          simp [polygonEntry, e1, e3]
        rw [hpe]
        simp only [e1, e3, Bool.false_eq_true, if_false, if_true, ih, sequenceO]
        cases hseq : sequenceO (rest.map (polygonEntry polygon)) <;>
          simp [hseq, commaJoin, writeKeyGraphQL, keyStr, String.append_assoc]
      · have hpe : polygonEntry polygon f1 = some (keyStr f1) := by
          simp [polygonEntry, e1, e3]
        rw [hpe]
        simp only [e1, e3, Bool.false_eq_true, if_false, ih, sequenceO]
        cases hseq : sequenceO (rest.map (polygonEntry polygon)) <;>
          simp [hseq, commaJoin, writeKeyGraphQL, keyStr, String.append_assoc]

/-- `completePolygon` appends `polygonContent` to the buffer. -/
theorem completePolygon_content (f : Field) (polygon : List JsonVal) (buf : String) :
    completePolygon f polygon buf = (polygonContent f polygon).map (fun s => buf ++ s) := by
  unfold completePolygon polygonContent
  rw [completePolygonAux_entries]
  cases hseq : sequenceO (f.selectionSet.map (polygonEntry polygon)) <;>
    simp [hseq, String.append_assoc]

/-- The polygons loop of `completeMultiPolygon` appends one polygon object
per polygon, joined by commas. -/
theorem completeMultiPolygonList_content (f : Field) :
    ∀ (mp : List JsonVal) (comma buf : String),
      completeMultiPolygonList f mp comma buf =
        (sequenceO (mp.map (fun p => polygonContent f (asArr p)))).map
          (fun es => buf ++ commaJoin comma es) := by
  intro mp
  induction mp with
  | nil =>
    intro comma buf
    simp [completeMultiPolygonList, sequenceO, commaJoin, String.append_empty]
  | cons p rest ih =>
    intro comma buf
    unfold completeMultiPolygonList
    rw [completePolygon_content]
    simp only [List.map_cons]
    cases hpc : polygonContent f (asArr p) with
    | none => simp [hpc, sequenceO]
    | some s =>
      simp only [hpc, Option.map_some, ih, sequenceO]
      cases hseq : sequenceO (rest.map (fun p => polygonContent f (asArr p))) <;>
        simp [hseq, commaJoin, String.append_assoc]

/-- The outer selection loop of `completeMultiPolygon` appends one member
per selected field, joined by commas. -/
theorem completeMultiPolygonAux_entries (mp : List JsonVal) :
    ∀ (fs : List Field) (comma buf : String),
      completeMultiPolygonAux mp fs comma buf =
        (sequenceO (fs.map (multiPolygonEntry mp))).map
          (fun es => buf ++ commaJoin comma es ++ "\x7d") := by
  intro fs
  induction fs with
  | nil =>
    intro comma buf
    simp [completeMultiPolygonAux, sequenceO, commaJoin, String.append_empty]
  | cons f rest ih =>
    intro comma buf
    unfold completeMultiPolygonAux
    simp only [List.map_cons]
    by_cases e1 : (f.name == polygonsName) = true
    · rw [completeMultiPolygonList_content]
      have hpe : multiPolygonEntry mp f =
          (sequenceO (mp.map (fun p => polygonContent f (asArr p)))).map
            (fun es => keyStr f ++ "[" ++ commaJoin "" es ++ "]") := by
        simp [multiPolygonEntry, e1]
      rw [hpe]
      cases hin : sequenceO (mp.map (fun p => polygonContent f (asArr p))) with
      | none => simp [e1, hin, sequenceO]
      | some es0 =>
        simp only [e1, hin, if_true, Option.map_some, ih, sequenceO]
        cases hseq : sequenceO (rest.map (multiPolygonEntry mp)) <;>
          simp [hseq, commaJoin, writeKeyGraphQL, keyStr, String.append_assoc]
    · by_cases e3 : (f.name == typenameName) = true
      · have hpe : multiPolygonEntry mp f = some (keyStr f ++ "\x22MultiPolygon\x22") := by
          simp [multiPolygonEntry, e1, e3]
        rw [hpe]
        simp only [e1, e3, Bool.false_eq_true, if_false, if_true, ih, sequenceO]
        cases hseq : sequenceO (rest.map (multiPolygonEntry mp)) <;>
          simp [hseq, commaJoin, writeKeyGraphQL, keyStr, String.append_assoc]
      · have hpe : multiPolygonEntry mp f = some (keyStr f) := by
          simp [multiPolygonEntry, e1, e3]
        rw [hpe]
        simp only [e1, e3, Bool.false_eq_true, if_false, ih, sequenceO]
        cases hseq : sequenceO (rest.map (multiPolygonEntry mp)) <;>
          simp [hseq, commaJoin, writeKeyGraphQL, keyStr, String.append_assoc]

/-- C8 counterexample: a Point completion whose selection set holds a field
named `foo` emits the key `foo` — outside the supported geo key set — and
pairs it with no value at all, refuting the claim that only supported
selected keys appear, each with a value. -/
theorem completePoint_foreign_key_emitted :
    completePoint (exGeoField [exScalarField "foo" true]) [.jnum "1", .jnum "2"] "" =
      some "\x7b\x22foo\x22:\x7d" ∧
    keyOccurs "foo" "\x7b\x22foo\x22:\x7d" = true ∧
    geoSupportedKeys.contains "foo" = false :=
  ⟨rfl, by decide, by decide⟩

/-- C8 amended: each geo completer emits, at every nesting level, exactly
one member per field of the relevant selection set, in selection order,
keyed by that field's response name; a member whose field name is supported
at its level (`longitude`/`latitude`/`__typename` for points,
`points`/`__typename` inside polygon rings, `coordinates`/`__typename` for
polygons, `polygons`/`__typename` for multi-polygons) carries the
corresponding value, and any other selected field's key is emitted with an
empty value. -/
theorem geoCompleters_emitted_members :
    (∀ (f : Field) (coordinate : List JsonVal) (buf : String),
      completePoint f coordinate buf = (pointContent f coordinate).map (fun s => buf ++ s)) ∧
    (∀ (f : Field) (polygon : List JsonVal) (buf : String),
      completePolygon f polygon buf = (polygonContent f polygon).map (fun s => buf ++ s)) ∧
    (∀ (f : Field) (mp : List JsonVal) (buf : String),
      completeMultiPolygon f mp buf = (multiPolygonContent f mp).map (fun s => buf ++ s)) := by
  refine ⟨completePoint_content, completePolygon_content, ?_⟩
  intro f mp buf
  unfold completeMultiPolygon multiPolygonContent
  rw [completeMultiPolygonAux_entries]
  cases hseq : sequenceO (f.selectionSet.map (multiPolygonEntry mp)) <;>
    simp [hseq, String.append_assoc]

end DgraphEnc
